import Mathlib

/-!
Shallow embedding of the algorithmic core of the Life-USTC/static
curriculum pipeline (src/src/utils/jw.py, src/src/utils/tools.py,
src/src/utils/catalog.py, src/src/utils/auth.py, src/src/curriculum.py),
together with theorems settling the specification claims about it.

Python dictionaries are embedded as association lists in insertion order
(inserting an existing key overwrites its value in place, which is exactly
CPython dict semantics); Python string membership `a in b` is embedded as a
substring test; machine integers are unbounded in Python, so `Int`/`Nat`
are used directly.
-/

namespace Static

/-- Python substring membership on character lists: `needle in hay`. -/
def listIn (needle hay : List Char) : Bool :=
  (List.range (hay.length + 1)).any
    (fun i => List.take needle.length (List.drop i hay) == needle)

/-- Python string membership `needle in hay` (substring test). -/
def pyStrIn (needle hay : String) : Bool :=
  listIn needle.data hay.data

/-- Python `str.split(sep)` with an explicit one-character separator, on
character lists: splitting the empty string yields one empty field, and
consecutive separators yield empty fields. -/
def splitOnChar (sep : Char) : List Char → List (List Char)
  | [] => [[]]
  | c :: rest =>
    let r := splitOnChar sep rest
    if c = sep then [] :: r
    else
      match r with
      | h :: t => (c :: h) :: t
      | [] => [[c]]

/-- Python `str.split(sep)` on strings. -/
def pySplit (sep : Char) (s : String) : List String :=
  (splitOnChar sep s.data).map (fun cs => String.mk cs)

/-- Decimal parse of a non-empty all-digit character list. -/
def charsToNat? (cs : List Char) : Option Nat :=
  if cs = [] then none
  else if cs.all Char.isDigit then
    some (cs.foldl (fun a c => a * 10 + (c.toNat - 48)) 0)
  else none

/-- Embedding of src/src/models/lecture.py `Lecture`.  `periods` is a float
in the source but is only carried through unchanged by the functions
modelled here, so it is embedded as `Int`; `additionalInfo` is a
string-to-string dict carried through unchanged, embedded as an
association list. -/
structure Lecture where
  startDate : Int
  endDate : Int
  name : String
  location : String
  teacherName : String
  periods : Int
  startIndex : Int
  endIndex : Int
  startHHMM : Int
  endHHMM : Int
  additionalInfo : List (String × String)
deriving DecidableEq, Repr

/-- One scan of `cleanLectures`' inner `for r in result` loop
(src/src/utils/jw.py lines 62-76): find the first entry `r` that matches
one of the three merge cases, return the result list with that entry
updated (the Python code mutates `r` in place and `break`s); `none` means
no entry matched (the loop's `else: result.append(lecture)` fires). -/
def scanResult (lecture : Lecture) : List Lecture → Option (List Lecture)
  | [] => none
  | r :: rest =>
    if lecture.startDate ≥ r.startDate ∧ lecture.endDate ≤ r.endDate then
      some ({ r with
        teacherName :=
          if pyStrIn lecture.teacherName r.teacherName then r.teacherName
          else r.teacherName ++ "," ++ lecture.teacherName,
        location :=
          if pyStrIn lecture.location r.location then r.location
          else r.location ++ "," ++ lecture.location } :: rest)
    else if lecture.endDate = r.startDate then
      some ({ r with
        startDate := lecture.startDate,
        startIndex := lecture.startIndex } :: rest)
    else if lecture.startDate = r.endDate then
      some ({ r with
        endDate := lecture.endDate,
        endIndex := lecture.endIndex } :: rest)
    else
      (scanResult lecture rest).map (r :: ·)

/-- Embedding of `cleanLectures` (src/src/utils/jw.py lines 58-79): a single
left-to-right pass accumulating merged lectures. -/
def cleanLectures (lectures : List Lecture) : List Lecture :=
  lectures.foldl
    (fun result lecture =>
      match scanResult lecture result with
      | some merged => merged
      | none => result ++ [lecture])
    []

/-- CPython dict insertion on an association list: overwriting an existing
key updates its value in place (keeping its position in iteration order);
a fresh key is appended at the end. -/
def pyDictInsert (m : List (Nat × Nat)) (k v : Nat) : List (Nat × Nat) :=
  if m.any (fun p => p.1 == k) then
    m.map (fun p => if p.1 == k then (k, v) else p)
  else
    m ++ [(k, v)]

/-- CPython dict lookup on an association list. -/
def pyDictGet (m : List (Nat × Nat)) (k : Nat) : Option Nat :=
  (m.find? (fun p => p.1 == k)).map Prod.snd

/-- The `map` dictionary built by `findNearestIndex` (src/src/utils/jw.py
lines 52-54): key = `abs(time - t)`, value = `index`, iterating the table
in insertion order, a later entry with the same absolute difference
overwriting the earlier one. -/
def diffMap (time : Int) (times : List (Nat × Int)) : List (Nat × Nat) :=
  times.foldl (fun m p => pyDictInsert m (time - p.2).natAbs p.1) []

/-- Embedding of `findNearestIndex` (src/src/utils/jw.py lines 51-55):
`map[min(map.keys())]`.  `none` models the exception Python would raise on
an empty table (never reached with the two 13-entry tables). -/
def findNearestIndex (time : Int) (times : List (Nat × Int)) : Option Nat :=
  let m := diffMap time times
  match (m.map Prod.fst).min? with
  | none => none
  | some k => pyDictGet m k

/-- Embedding of `indexStartTimes` (src/src/utils/jw.py lines 18-32), in
dict insertion order. -/
def indexStartTimes : List (Nat × Int) :=
  [(1, 7 * 60 + 50), (2, 8 * 60 + 40), (3, 9 * 60 + 45), (4, 10 * 60 + 35),
   (5, 11 * 60 + 25), (6, 14 * 60 + 0), (7, 14 * 60 + 50), (8, 15 * 60 + 35),
   (9, 16 * 60 + 45), (10, 17 * 60 + 35), (11, 19 * 60 + 30),
   (12, 20 * 60 + 20), (13, 21 * 60 + 10)]

/-- Embedding of `endIndexTimes` (src/src/utils/jw.py lines 34-48), in
dict insertion order. -/
def endIndexTimes : List (Nat × Int) :=
  [(1, 8 * 60 + 35), (2, 9 * 60 + 25), (3, 10 * 60 + 30), (4, 11 * 60 + 20),
   (5, 12 * 60 + 10), (6, 14 * 60 + 45), (7, 15 * 60 + 35), (8, 16 * 60 + 40),
   (9, 17 * 60 + 30), (10, 18 * 60 + 20), (11, 20 * 60 + 15),
   (12, 21 * 60 + 5), (13, 21 * 60 + 55)]

/-- Helper to build concrete `Lecture` values for counterexamples and
witnesses. -/
def mkLecture (s e : Int) (teacher loc : String) (si ei : Int) : Lecture :=
  { startDate := s, endDate := e, name := "L", location := loc,
    teacherName := teacher, periods := 2, startIndex := si, endIndex := ei,
    startHHMM := 800, endHHMM := 900, additionalInfo := [] }

/-- First lecture of the C2 counterexample: teacher "AB". -/
def lecC2a : Lecture := mkLecture 0 10 "AB" "X" 1 1

/-- Second lecture of the C2 counterexample: teacher "A", which is a
substring of "AB". -/
def lecC2b : Lecture := mkLecture 0 10 "A" "Y" 1 1

/-- First lecture of the C2 witness pair. -/
def lecC2w1 : Lecture := mkLecture 0 10 "A" "X" 1 1

/-- Second lecture of the C2 witness pair. -/
def lecC2w2 : Lecture := mkLecture 0 10 "B" "Y" 1 1

/-- Earlier lecture of the C3 counterexample: interval [3, 5]. -/
def lecC3a : Lecture := mkLecture 3 5 "A" "X" 1 7

/-- Later, degenerate lecture of the C3 counterexample: interval [5, 5],
whose start equals the earlier lecture's end. -/
def lecC3b : Lecture := mkLecture 5 5 "B" "Y" 9 9

/-- Earlier lecture of the C3/C8 witness pair: interval [0, 10]. -/
def lecW1 : Lecture := mkLecture 0 10 "A" "X" 1 2

/-- Later lecture of the C3/C8 witness pair: interval [10, 20], adjacent to
`lecW1`. -/
def lecW2 : Lecture := mkLecture 10 20 "B" "Y" 3 4

/-! Login state machine (src/src/utils/auth.py). -/

/-- Embedding of `LoginState` (src/src/utils/auth.py lines 23-27). -/
inductive LoginState where
  | FILL_CREDENTIALS
  | FILL_TOTP
  | DONE
  | UNKNOWN
deriving DecidableEq, Repr

/-- One observation of the browser page, as consumed by
`_detect_login_state`: whether the success-marker URL check, the
credentials-form detector and the TOTP-tab detector match (a detector that
throws is treated as not matched by the source, so `false` also covers the
throwing case). -/
structure PageObs where
  successMarker : Bool
  credsForm : Bool
  totpTab : Bool

/-- Embedding of `_detect_login_state` (src/src/utils/auth.py lines
343-349): success marker first, then the configured steps in order
(credentials form, then TOTP tab), else UNKNOWN. -/
def detectLoginState (obs : PageObs) : LoginState :=
  if obs.successMarker then .DONE
  else if obs.credsForm then .FILL_CREDENTIALS
  else if obs.totpTab then .FILL_TOTP
  else .UNKNOWN

/-- Outcome of one invocation of a step's `act` function: normal return, a
timeout-class exception, or any other exception. -/
inductive ActOutcome where
  | ok
  | timeoutErr
  | otherErr
deriving DecidableEq, Repr

/-- A scripted browser: `obs n` is the page observation consumed by the
n-th call to `_detect_login_state` (redetection calls included), and
`actResult n` is the outcome of the n-th `act` invocation. -/
structure BrowserScript where
  obs : Nat → PageObs
  actResult : Nat → ActOutcome

/-- The two tuning knobs of `LoginConfig` that the state machine itself
reads (src/src/utils/auth.py lines 30-37); the wait durations only spend
time and are not modelled. -/
structure LoginConfig where
  state_max_turns : Nat
  state_redetect_attempts : Nat

/-- Result of one attempt of the state machine: whether it succeeded, how
many turns of the loop ran, and the sequence of `act` invocations it
issued (by state). -/
structure MachineResult where
  success : Bool
  turnsUsed : Nat
  actions : List LoginState
deriving DecidableEq, Repr

/-- Embedding of `_redetect_login_state` (src/src/utils/auth.py lines
351-361): up to `state_redetect_attempts` further detections, returning
the first non-UNKNOWN state, else UNKNOWN; also returns the updated
detect-call counter. -/
def redetectLoginState (script : BrowserScript) :
    Nat → Nat → LoginState × Nat
  | dIdx, 0 => (.UNKNOWN, dIdx)
  | dIdx, n + 1 =>
    let s := detectLoginState (script.obs dIdx)
    if s ≠ LoginState.UNKNOWN then (s, dIdx + 1)
    else redetectLoginState script (dIdx + 1) n

/-- Embedding of the turn loop of `_run_login_state_machine`
(src/src/utils/auth.py lines 363-424).  Arguments: turns left, detect-call
counter, act-call counter, turns used so far, actions issued so far. -/
def runLoginTurns (script : BrowserScript) (cfg : LoginConfig) :
    Nat → Nat → Nat → Nat → List LoginState → MachineResult
  | 0, _, _, used, acts => ⟨false, used, acts⟩
  | n + 1, dIdx, aIdx, used, acts =>
    let st := detectLoginState (script.obs dIdx)
    -- the act branch of a turn: invoke the step's `act`; on a
    -- timeout-class error run the redetection loop (success on DONE,
    -- continue on a different known state, abandon the attempt
    -- otherwise); on any other error abandon the attempt
    let doAct : LoginState → MachineResult := fun s =>
      let acts2 := acts ++ [s]
      match script.actResult aIdx with
      | .ok => runLoginTurns script cfg n (dIdx + 1) (aIdx + 1) (used + 1) acts2
      | .otherErr => ⟨false, used + 1, acts2⟩
      | .timeoutErr =>
        let rd := redetectLoginState script (dIdx + 1)
          cfg.state_redetect_attempts
        if rd.1 = LoginState.DONE then ⟨true, used + 1, acts2⟩
        else if rd.1 ≠ LoginState.UNKNOWN ∧ rd.1 ≠ s then
          runLoginTurns script cfg n rd.2 (aIdx + 1) (used + 1) acts2
        else ⟨false, used + 1, acts2⟩
    match st with
    | .DONE => ⟨true, used + 1, acts⟩
    | .UNKNOWN => runLoginTurns script cfg n (dIdx + 1) aIdx (used + 1) acts
    | .FILL_CREDENTIALS => doAct .FILL_CREDENTIALS
    | .FILL_TOTP => doAct .FILL_TOTP

/-- Embedding of `_run_login_state_machine` called with the default
`max_turns = None`, i.e. `state_max_turns` turns. -/
def runLoginStateMachine (script : BrowserScript) (cfg : LoginConfig) :
    MachineResult :=
  runLoginTurns script cfg cfg.state_max_turns 0 0 0 []

/-- Scripted browser whose first detection sees a credentials form and all
later detections see the success marker; actions always succeed. -/
def credsThenDoneScript : BrowserScript :=
  { obs := fun n =>
      if n = 0 then { successMarker := false, credsForm := true, totpTab := false }
      else { successMarker := true, credsForm := false, totpTab := false },
    actResult := fun _ => .ok }

/-- Scripted browser on which every detector reports nothing, so every
detection yields UNKNOWN. -/
def unknownScript : BrowserScript :=
  { obs := fun _ =>
      { successMarker := false, credsForm := false, totpTab := false },
    actResult := fun _ => .ok }

/-! Timestamp composition (src/src/utils/tools.py). -/

/-- Gregorian leap-year test, as used by the date library backing
`datetime.strptime`. -/
def isLeapYear (y : Nat) : Bool :=
  (y % 4 == 0 && y % 100 != 0) || y % 400 == 0

/-- Number of days in a month, for `strptime`'s validity check. -/
def daysInMonth (y m : Nat) : Nat :=
  if m = 2 then (if isLeapYear y then 29 else 28)
  else if m = 4 ∨ m = 6 ∨ m = 9 ∨ m = 11 then 30
  else 31

/-- Embedding of `datetime.strptime(date_str, "%Y-%m-%d")`: split on "-",
parse the three decimal components, and validate the ranges that the
datetime constructor enforces (year 1-9999, month 1-12, day within the
month); `none` models the ValueError Python raises otherwise. -/
def parseDateYMD (s : String) : Option (Nat × Nat × Nat) :=
  match splitOnChar '-' s.data with
  | [ys, ms, ds] =>
    match charsToNat? ys, charsToNat? ms, charsToNat? ds with
    | some y, some m, some d =>
      if 1 ≤ y ∧ y ≤ 9999 ∧ 1 ≤ m ∧ m ≤ 12 ∧ 1 ≤ d ∧ d ≤ daysInMonth y m
      then some (y, m, d) else none
    | _, _, _ => none
  | _ => none

/-- Days from the Unix epoch 1970-01-01 to the civil date y-m-d (the
standard civil-calendar day-count algorithm). -/
def daysFromCivil (y m d : Nat) : Int :=
  let yi : Int := if m ≤ 2 then (y : Int) - 1 else (y : Int)
  let era : Int := yi.fdiv 400
  let yoe : Int := yi - era * 400
  let mp : Int := ((m : Int) + 9).fmod 12
  let doy : Int := (153 * mp + 2).fdiv 5 + (d : Int) - 1
  let doe : Int := yoe * 365 + yoe.fdiv 4 - yoe.fdiv 100 + doy
  era * 146097 + doe - 719468

/-- The UTC offset of the institution's fixed home zone, pytz
`timezone("Asia/Shanghai")` (src/src/utils/tools.py line 9): +08:00, with
no daylight saving, for every date in the data's era.  The offset is a
constant of the embedding — it does not depend on the executing machine's
local zone, mirroring that the source pins `tz` at module level. -/
def shanghaiUtcOffsetSeconds : Int := 8 * 3600

/-- Embedding of `raw_date_to_unix_timestamp` (src/src/utils/tools.py
lines 17-20): parse `YYYY-MM-DD`, localize midnight to the fixed
Asia/Shanghai zone and return the Unix timestamp; `none` models the
ValueError of `strptime` on a malformed date. -/
def raw_date_to_unix_timestamp (date_str : String) : Option Int :=
  match parseDateYMD date_str with
  | none => none
  | some (y, m, d) =>
    some (daysFromCivil y m d * 86400 - shanghaiUtcOffsetSeconds)

/-- The inner `compose_datetime` of `compose_start_end`
(src/src/utils/tools.py lines 33-35): base midnight plus
`hhmm // 100` hours plus `hhmm % 100` minutes (Python floor division and
modulo, hence `Int.fdiv`/`Int.fmod`). -/
def compose_datetime (date_str : String) (hhmm : Int) : Option Int :=
  (raw_date_to_unix_timestamp date_str).map
    (fun base => base + hhmm.fdiv 100 * 3600 + hhmm.fmod 100 * 60)

/-- Embedding of `compose_start_end` (src/src/utils/tools.py lines
32-37). -/
def compose_start_end (date_str : String) (start_hhmm end_hhmm : Int) :
    Option (Int × Int) :=
  match compose_datetime date_str start_hhmm,
        compose_datetime date_str end_hhmm with
  | some s, some e => some (s, e)
  | _, _ => none

/-- The same composition as observed from a machine whose local zone has
the given UTC offset: the parameter is ignored because the source pins
`tz = timezone("Asia/Shanghai")` at module level, so the result never
depends on the execution environment. -/
def compose_start_end_in_env (_machineZoneOffset : Int) (date_str : String)
    (start_hhmm end_hhmm : Int) : Option (Int × Int) :=
  compose_start_end date_str start_hhmm end_hhmm

/-! Exam parsing (src/src/utils/catalog.py). -/

/-- Embedding of the `lesson.course` sub-record of a raw exam item. -/
structure RawLessonCourse where
  cn : Option String
deriving DecidableEq, Repr

/-- Embedding of the `lesson` sub-record of a raw exam item. -/
structure RawLesson where
  id : Option Int
  course : Option RawLessonCourse
deriving DecidableEq, Repr

/-- Embedding of one raw exam item of the catalog exam-list payload.  Each
element of `examRooms` models one `er` entry flattened to its `room`
string (`none` covers both a missing entry and a missing room). -/
structure RawExamItem where
  examDate : Option String
  startTime : Option Int
  endTime : Option Int
  lesson : Option RawLesson
  examType : Option Int
  examMode : Option String
  examRooms : List (Option String)
deriving DecidableEq, Repr

/-- Embedding of src/src/models/exam.py `Exam` (additionalInfo, always the
empty dict here, as an association list). -/
structure Exam where
  startDate : Int
  endDate : Int
  name : String
  location : String
  examType : String
  startHHMM : Int
  endHHMM : Int
  examMode : String
  additionalInfo : List (String × String)
deriving DecidableEq, Repr

/-- The exam-type mapping of `parse_exams` (src/src/utils/catalog.py lines
133-137): code 1 is the midterm label, code 2 the final label, anything
else (a missing code included) the literal "Unknown". -/
def examTypeOf (code : Option Int) : String :=
  if code = some 1 then "期中考试"
  else if code = some 2 then "期末考试"
  else "Unknown"

/-- CPython dict insertion-or-append for the `result[lesson_id]` lists of
`parse_exams`: append to an existing key's list in place, else add the key
at the end. -/
def examDictAppend (m : List (Int × List Exam)) (k : Int) (e : Exam) :
    List (Int × List Exam) :=
  if m.any (fun p => p.1 == k) then
    m.map (fun p => if p.1 == k then (p.1, p.2 ++ [e]) else p)
  else
    m ++ [(k, [e])]

/-- The body of one `parse_exams` loop iteration for a present item
(src/src/utils/catalog.py lines 116-156): skip (`some none`) items without
a date, without start/end times, without a lesson/course, or without a
lesson id; otherwise compose the timestamps (a malformed date raises,
modelled by `none`), join the room names, map the exam-type code and
yield the exam keyed by its lesson id (`some (some (key, exam))`). -/
def parseExamItem (item : RawExamItem) : Option (Option (Int × Exam)) :=
  match item.examDate with
  | none => some none
  | some d =>
    if d = "" then some none
    else
      match item.startTime, item.endTime with
      | some startHHMM, some endHHMM =>
        match item.lesson with
        | none => some none
        | some lesson =>
          match lesson.course with
          | none => some none
          | some course =>
            match lesson.id with
            | none => some none
            | some lesson_id =>
              let room_list := item.examRooms.filterMap (fun r =>
                match r with
                | some room => if room = "" then none else some room
                | none => none)
              let location := String.intercalate ", " room_list
              match compose_start_end d startHHMM endHHMM with
              | none => none
              | some (startDate, endDate) =>
                some (some (lesson_id,
                  { startDate := startDate, endDate := endDate,
                    name := course.cn.getD "",
                    location := location,
                    examType := examTypeOf item.examType,
                    startHHMM := startHHMM, endHHMM := endHHMM,
                    examMode := item.examMode.getD "",
                    additionalInfo := [] }))
      | _, _ => some none

/-- One iteration of the `parse_exams` loop: falsy items are skipped, a
raised exception (`none`) is propagated, and a produced exam is appended
under its lesson id. -/
def parseExamStep (acc : Option (List (Int × List Exam)))
    (oitem : Option RawExamItem) : Option (List (Int × List Exam)) :=
  match acc with
  | none => none
  | some m =>
    match oitem with
    | none => some m
    | some item =>
      match parseExamItem item with
      | none => none
      | some none => some m
      | some (some (lesson_id, exam)) =>
        some (examDictAppend m lesson_id exam)

/-- Embedding of `parse_exams` (src/src/utils/catalog.py lines 111-158):
fold the step over the payload items; `none` models the exception a
malformed exam date raises. -/
def parse_exams (items : List (Option RawExamItem)) :
    Option (List (Int × List Exam)) :=
  items.foldl parseExamStep (some [])

/-! Orchestrator semester filtering (src/src/curriculum.py). -/

/-- Embedding of src/src/models/semester.py `Semester`; the `courses`
collection (always empty when the filter below runs, and untouched by
it) is omitted. -/
structure Semester where
  id : String
  name : String
  startDate : Int
  endDate : Int
deriving DecidableEq, Repr

/-- Python `int(...)` applied to a semester id string: optional leading
minus sign followed by decimal digits (the surrounding-whitespace and
underscore liberality of Python's `int` never arises for the numeric ids
at hand); `none` models the ValueError on a non-numeric id. -/
def pyIntOfString (s : String) : Option Int :=
  match s.data with
  | '-' :: rest => (charsToNat? rest).map (fun n => -(n : Int))
  | cs => (charsToNat? cs).map (fun n => (n : Int))

/-- The semester filter of `make_curriculum` (src/src/curriculum.py line
99): `[semester for semester in semesters if int(semester.id) >= 401]`.
`none` models the ValueError raised when some id does not parse. -/
def processedSemesters (semesters : List Semester) :
    Option (List Semester) :=
  if semesters.all (fun s => (pyIntOfString s.id).isSome) then
    some (semesters.filter (fun s => 401 ≤ (pyIntOfString s.id).getD 0))
  else none

/-- The data-flow core of `make_curriculum` (src/src/curriculum.py lines
95-112): the full parsed semester list is persisted to semesters.json
(first component), and the per-semester fetch loop runs over the filtered
list only (second component). -/
def make_curriculum_core (semesters : List Semester) :
    List Semester × Option (List Semester) :=
  (semesters, processedSemesters semesters)

/-! Module-level jw user-id cache (src/src/utils/jw.py). -/

/-- Python `str.isnumeric` restricted to ASCII decimal digits (the only
characters a numeric URL path segment can contain). -/
def pyIsNumeric (s : String) : Bool :=
  !s.isEmpty && s.data.all Char.isDigit

/-- Embedding of `_get_jw_user_id` (src/src/utils/jw.py lines 82-94).  The
module-level dict `_jw_user_id_cache` is threaded explicitly as an
association list in insertion order; `finalUrl` is the redirect URL the
network fetch would observe for this call.  Returns the user id, the
updated cache, and whether a network resolution was performed;
`Except.error` models the ValueError on a non-numeric id. -/
def getJwUserId : List (Nat × String) → Nat → String →
    Except String (String × List (Nat × String) × Bool)
  | (k, v) :: rest, _, _ => .ok (v, (k, v) :: rest, false)
  | [], sessionId, finalUrl =>
    let user_id := (pySplit '/' finalUrl).getLastD ""
    if pyIsNumeric user_id then
      .ok (user_id, [(sessionId, user_id)], true)
    else
      .error ("Failed to get jw user id from url: " ++ finalUrl)

/-- A sequence of `_get_jw_user_id` calls against the threaded cache: for
each (session id, redirect URL) pair, perform the call and record its
visible outcome (user id and whether the network was hit); an error call
leaves the cache unchanged.  Returns the outcomes and the final cache. -/
def runJwCalls : List (Nat × String) → List (Nat × String) →
    List (Except String (String × Bool)) × List (Nat × String)
  | cache, [] => ([], cache)
  | cache, (sid, url) :: rest =>
    match getJwUserId cache sid url with
    | .ok (uid, c2, net) =>
      let r := runJwCalls c2 rest
      (.ok (uid, net) :: r.1, r.2)
    | .error e =>
      let r := runJwCalls cache rest
      (.error e :: r.1, r.2)

/-! Concrete payloads for witnesses. -/

/-- A fully populated raw exam item (a final exam in room 5401). -/
def demoExamItem : RawExamItem :=
  { examDate := some "2021-08-10", startTime := some 830,
    endTime := some 1030,
    lesson := some { id := some 99, course := some { cn := some "微积分" } },
    examType := some 2, examMode := some "闭卷",
    examRooms := [some "5401", none, some ""] }

/-- The exam `parse_exams` produces from `demoExamItem`. -/
def demoParsedExam : Exam :=
  { startDate := 1628555400, endDate := 1628562600, name := "微积分",
    location := "5401", examType := "期末考试", startHHMM := 830,
    endHHMM := 1030, examMode := "闭卷", additionalInfo := [] }

/-- A semester whose numeric id 400 is below the configured floor 401. -/
def sem400 : Semester := { id := "400", name := "2020春", startDate := 0, endDate := 1 }

/-- A semester whose numeric id 401 is at the configured floor. -/
def sem401 : Semester := { id := "401", name := "2020夏", startDate := 2, endDate := 3 }

/-- A raw semester list containing one id below and one at the floor. -/
def demoSemesters : List Semester := [sem400, sem401]

/-- The processed list for `demoSemesters`: only the id-401 semester. -/
def demoProcessed : List Semester := [sem401]

/-- A sequence of later `_get_jw_user_id` calls from other sessions. -/
def demoJwCalls : List (Nat × String) :=
  [(2, "not-a-number"), (3, "https://jw.ustc.edu.cn/for-std/course-select/999")]

/-! ### Lemmas and claim theorems -/

theorem pyDictInsert_ne_nil (m : List (Nat × Nat)) (k v : Nat) :
    pyDictInsert m k v ≠ [] := by
  unfold pyDictInsert
  split
  · intro h
    rename_i hany
    rw [List.map_eq_nil_iff] at h
    subst h
    simp [List.any_nil] at hany
  · simp

theorem pyDictInsert_values (m : List (Nat × Nat)) (k v : Nat) :
    ∀ q ∈ pyDictInsert m k v, q.2 ∈ m.map Prod.snd ∨ q.2 = v := by
  intro q hq
  unfold pyDictInsert at hq
  split at hq
  · rw [List.mem_map] at hq
    obtain ⟨p, hp, hpq⟩ := hq
    by_cases hk : p.1 == k
    · simp [hk] at hpq
      right
      rw [← hpq]
    · simp [hk] at hpq
      left
      rw [List.mem_map]
      exact ⟨p, hp, by rw [hpq]⟩
  · rw [List.mem_append] at hq
    rcases hq with hq | hq
    · left
      rw [List.mem_map]
      exact ⟨q, hq, rfl⟩
    · right
      simp at hq
      rw [hq]

theorem foldl_pyDictInsert_ne_nil (time : Int) (times : List (Nat × Int))
    (m : List (Nat × Nat)) (h : m ≠ [] ∨ times ≠ []) :
    times.foldl (fun m p => pyDictInsert m (time - p.2).natAbs p.1) m ≠ [] := by
  induction times generalizing m with
  | nil =>
    simp only [List.foldl_nil]
    rcases h with h | h
    · exact h
    · exact absurd rfl h
  | cons p rest ih =>
    simp only [List.foldl_cons]
    exact ih _ (Or.inl (pyDictInsert_ne_nil m _ p.1))

theorem foldl_pyDictInsert_values (time : Int) (times : List (Nat × Int))
    (S : List Nat) (m : List (Nat × Nat)) (hm : ∀ q ∈ m, q.2 ∈ S)
    (ht : ∀ p ∈ times, p.1 ∈ S) :
    ∀ q ∈ times.foldl (fun m p => pyDictInsert m (time - p.2).natAbs p.1) m,
      q.2 ∈ S := by
  induction times generalizing m with
  | nil =>
    simpa using hm
  | cons p rest ih =>
    simp only [List.foldl_cons]
    refine ih _ ?_ (fun q hq => ht q (List.mem_cons_of_mem _ hq))
    intro q hq
    rcases pyDictInsert_values m _ p.1 q hq with h | h
    · rw [List.mem_map] at h
      obtain ⟨r, hr, hrq⟩ := h
      exact hrq ▸ hm r hr
    · exact h ▸ ht p (List.mem_cons_self _ _)

theorem pyDictGet_of_mem_keys (m : List (Nat × Nat)) (k : Nat)
    (h : k ∈ m.map Prod.fst) : ∃ v, pyDictGet m k = some v ∧ (k, v) ∈ m := by
  induction m with
  | nil => simp at h
  | cons p rest ih =>
    by_cases hk : p.1 == k
    · refine ⟨p.2, ?_, ?_⟩
      · simp [pyDictGet, List.find?, hk]
      · have : p = (k, p.2) := by
          have h1 : p.1 = k := by simpa using hk
          cases p
          simp at h1 ⊢
          exact h1
        rw [← this]
        exact List.mem_cons_self _ _
    · have hne : k ∈ rest.map Prod.fst := by
        simp only [List.map_cons, List.mem_cons] at h
        rcases h with h | h
        · exact absurd (by simp [h]) hk
        · exact h
      obtain ⟨v, hv, hmem⟩ := ih hne
      refine ⟨v, ?_, List.mem_cons_of_mem _ hmem⟩
      simpa [pyDictGet, List.find?, hk] using hv

theorem findNearestIndex_total (time : Int) (times : List (Nat × Int))
    (h : times ≠ []) :
    ∃ i, findNearestIndex time times = some i ∧ i ∈ times.map Prod.fst := by
  have hm : diffMap time times ≠ [] :=
    foldl_pyDictInsert_ne_nil time times [] (Or.inr h)
  have hkeys : (diffMap time times).map Prod.fst ≠ [] := by
    intro hc
    exact hm (List.map_eq_nil_iff.mp hc)
  obtain ⟨k, hk⟩ : ∃ k, ((diffMap time times).map Prod.fst).min? = some k := by
    cases hmin : ((diffMap time times).map Prod.fst).min? with
    | none => exact absurd (List.min?_eq_none_iff.mp hmin) hkeys
    | some k => exact ⟨k, rfl⟩
  have hkmem : k ∈ (diffMap time times).map Prod.fst :=
    List.min?_mem (fun a b => min_choice a b) hk
  obtain ⟨v, hv, hmem⟩ := pyDictGet_of_mem_keys _ k hkmem
  refine ⟨v, ?_, ?_⟩
  · simp only [findNearestIndex, hk]
    exact hv
  · have := foldl_pyDictInsert_values time times (times.map Prod.fst) []
      (by simp) (fun p hp => List.mem_map_of_mem Prod.fst hp) (k, v) hmem
    exact this

/-- C1 counterexample: the input 495 is exactly the midpoint between the
table values 470 (index 1) and 520 (index 2) of `indexStartTimes`, yet
`findNearestIndex` returns index 2, not the lower index 1 claimed: in the
diff dictionary a later entry with the same absolute difference overwrites
the earlier one, so the higher index wins ties. -/
theorem C1_counterexample :
    (1, 470) ∈ indexStartTimes ∧ (2, 520) ∈ indexStartTimes ∧
    ((495 : Int) - 470).natAbs = ((520 : Int) - 495).natAbs ∧
    findNearestIndex 495 indexStartTimes = some 2 ∧
    ¬ findNearestIndex 495 indexStartTimes = some 1 := by
  decide

/-- C1 (amended): `findNearestIndex` is total over any integer minute-of-day
input against either 13-entry lookup table and always returns an index of
the table; for an input exactly equal to a table value it returns that
entry's index; and for an input exactly at the midpoint between two
adjacent table values it returns the higher-valued index (the last entry
in iteration order with the minimal absolute difference wins, because a
later equal difference overwrites the earlier one in the diff
dictionary). -/
theorem C1_theorem :
    (∀ time : Int, ∃ i, findNearestIndex time indexStartTimes = some i ∧
      i ∈ indexStartTimes.map Prod.fst) ∧
    (∀ time : Int, ∃ i, findNearestIndex time endIndexTimes = some i ∧
      i ∈ endIndexTimes.map Prod.fst) ∧
    (indexStartTimes.all
      (fun p => findNearestIndex p.2 indexStartTimes == some p.1)) = true ∧
    (endIndexTimes.all
      (fun p => findNearestIndex p.2 endIndexTimes == some p.1)) = true ∧
    ((indexStartTimes.zip indexStartTimes.tail).all (fun pq =>
      if (pq.1.2 + pq.2.2) % 2 = 0 then
        findNearestIndex ((pq.1.2 + pq.2.2) / 2) indexStartTimes == some pq.2.1
      else true)) = true ∧
    ((endIndexTimes.zip endIndexTimes.tail).all (fun pq =>
      if (pq.1.2 + pq.2.2) % 2 = 0 then
        findNearestIndex ((pq.1.2 + pq.2.2) / 2) endIndexTimes == some pq.2.1
      else true)) = true := by
  refine ⟨?_, ?_, by decide, by decide, by decide, by decide⟩
  · intro time
    exact findNearestIndex_total time indexStartTimes (by decide)
  · intro time
    exact findNearestIndex_total time endIndexTimes (by decide)

/-- C2 counterexample: two lectures with identical start/end dates,
teachers "AB" then "A".  Because membership is tested with Python's
substring operator, "A" is considered already present in "AB" and is
dropped, so the merged teacher field is "AB" and not the comma-union
"AB,A" the claim requires. -/
theorem C2_counterexample :
    lecC2a.startDate = lecC2b.startDate ∧ lecC2a.endDate = lecC2b.endDate ∧
    lecC2a.teacherName ≠ lecC2b.teacherName ∧
    (cleanLectures [lecC2a, lecC2b]).map Lecture.teacherName = ["AB"] ∧
    ("AB" : String) ≠ "AB,A" := by
  decide

/-- C2 (amended): for a two-entry input whose lectures share identical
startDate/endDate, `cleanLectures` merges them into a single output entry;
the second entry's teacherName (resp. location) is appended comma-separated
exactly when it is not already a substring of the first entry's field, so
when neither field of the second lecture occurs as a substring of the
first's, the output fields are the comma-unions in first-seen order. -/
theorem C2_theorem (l1 l2 : Lecture) (h1 : l1.startDate = l2.startDate)
    (h2 : l1.endDate = l2.endDate) :
    cleanLectures [l1, l2] = [{ l1 with
      teacherName :=
        if pyStrIn l2.teacherName l1.teacherName then l1.teacherName
        else l1.teacherName ++ "," ++ l2.teacherName,
      location :=
        if pyStrIn l2.location l1.location then l1.location
        else l1.location ++ "," ++ l2.location }] := by
  have hc : l2.startDate ≥ l1.startDate ∧ l2.endDate ≤ l1.endDate := by
    omega
  simp [cleanLectures, scanResult, hc]

/-- C2 witness: the amended merge equation evaluated on the concrete pair
`lecC2w1`, `lecC2w2` (teachers "A" and "B", locations "X" and "Y"). -/
theorem C2_witness :
    cleanLectures [lecC2w1, lecC2w2] =
      [{ lecC2w1 with teacherName := "A,B", location := "X,Y" }] :=
  C2_theorem lecC2w1 lecC2w2 rfl rfl

/-- C3 counterexample: lectures [3,5] and the degenerate [5,5] satisfy "one
lecture's endDate equals the other's startDate", but the degenerate later
lecture is swallowed by the containment branch, so the single output entry
keeps the earlier lecture's endIndex 7 instead of the later lecture's
endIndex 9 as the claim requires. -/
theorem C3_counterexample :
    lecC3a.endDate = lecC3b.startDate ∧
    lecC3a.startDate < lecC3b.startDate ∧
    lecC3b.endIndex = 9 ∧
    (cleanLectures [lecC3a, lecC3b]).map Lecture.endIndex = [7] ∧
    ((7 : Int) ≠ 9) := by
  decide

/-- C3 (amended): for every input list of exactly two non-degenerate
lectures (each with startDate strictly below endDate) where one lecture's
endDate equals the other's startDate, in either input order,
`cleanLectures` returns exactly one entry spanning the union interval,
with startDate/startIndex taken from the earlier source lecture and
endDate/endIndex from the later source lecture. -/
theorem C3_theorem (a b : Lecture) (ha : a.startDate < a.endDate)
    (hb : b.startDate < b.endDate) (hadj : a.endDate = b.startDate) :
    cleanLectures [a, b] =
      [{ a with endDate := b.endDate, endIndex := b.endIndex }] ∧
    cleanLectures [b, a] =
      [{ b with startDate := a.startDate, startIndex := a.startIndex }] := by
  constructor
  · have hc1 : ¬(b.startDate ≥ a.startDate ∧ b.endDate ≤ a.endDate) := by
      omega
    have hc2 : ¬(b.endDate = a.startDate) := by omega
    have hc3 : b.startDate = a.endDate := hadj.symm
    have hc4 : ¬(a.startDate ≤ a.endDate ∧ b.endDate ≤ a.endDate) := by
      omega
    simp [cleanLectures, scanResult, hc1, hc2, hc3, hc4]
  · have hc1 : ¬(a.startDate ≥ b.startDate ∧ a.endDate ≤ b.endDate) := by
      omega
    have hc2 : a.endDate = b.startDate := hadj
    have hc4 : ¬(b.startDate ≤ a.startDate ∧ b.startDate ≤ b.endDate) := by
      omega
    simp [cleanLectures, scanResult, hc1, hc2, hc4]

/-- C3 witness: the amended merge evaluated on the concrete adjacent pair
`lecW1` = [0,10], `lecW2` = [10,20], in both orders. -/
theorem C3_witness :
    cleanLectures [lecW1, lecW2] =
      [{ lecW1 with endDate := 20, endIndex := 4 }] ∧
    cleanLectures [lecW2, lecW1] =
      [{ lecW2 with startDate := 0, startIndex := 1 }] :=
  C3_theorem lecW1 lecW2 (by decide) (by decide) (by decide)

/-- The inner scan of `cleanLectures` preserves the start ≤ end invariant:
if the incoming lecture and every accumulated entry satisfy it, so does
every entry of the updated accumulator. -/
theorem scanResult_invariant (lecture : Lecture) (hl : lecture.startDate ≤ lecture.endDate) :
    ∀ result merged, (∀ r ∈ result, r.startDate ≤ r.endDate) →
      scanResult lecture result = some merged →
      ∀ r ∈ merged, r.startDate ≤ r.endDate := by
  intro result
  induction result with
  | nil =>
    intro merged _ hscan
    simp [scanResult] at hscan
  | cons r rest ih =>
    intro merged hinv hscan
    have hr : r.startDate ≤ r.endDate := hinv r (List.mem_cons_self _ _)
    have hrest : ∀ q ∈ rest, q.startDate ≤ q.endDate :=
      fun q hq => hinv q (List.mem_cons_of_mem _ hq)
    simp only [scanResult] at hscan
    split at hscan
    · rename_i hcond
      rw [Option.some_inj] at hscan
      subst hscan
      intro q hq
      rcases List.mem_cons.mp hq with hq | hq
      · subst hq
        exact hr
      · exact hrest q hq
    · split at hscan
      · rename_i hcond
        rw [Option.some_inj] at hscan
        subst hscan
        intro q hq
        rcases List.mem_cons.mp hq with hq | hq
        · subst hq
          simp only
          omega
        · exact hrest q hq
      · split at hscan
        · rename_i hcond
          rw [Option.some_inj] at hscan
          subst hscan
          intro q hq
          rcases List.mem_cons.mp hq with hq | hq
          · subst hq
            simp only
            omega
          · exact hrest q hq
        · rw [Option.map_eq_some'] at hscan
          obtain ⟨rest', hrest', heq⟩ := hscan
          subst heq
          intro q hq
          rcases List.mem_cons.mp hq with hq | hq
          · subst hq
            exact hr
          · exact ih rest' hrest hrest' q hq

/-- The accumulator invariant for the outer fold of `cleanLectures`. -/
theorem cleanLectures_fold_invariant (lectures : List Lecture) :
    ∀ acc, (∀ l ∈ lectures, l.startDate ≤ l.endDate) →
      (∀ r ∈ acc, r.startDate ≤ r.endDate) →
      ∀ r ∈ lectures.foldl
        (fun result lecture =>
          match scanResult lecture result with
          | some merged => merged
          | none => result ++ [lecture]) acc,
        r.startDate ≤ r.endDate := by
  induction lectures with
  | nil =>
    intro acc _ hacc
    simpa using hacc
  | cons l rest ih =>
    intro acc hin hacc
    simp only [List.foldl_cons]
    have hl : l.startDate ≤ l.endDate := hin l (List.mem_cons_self _ _)
    have hrest : ∀ q ∈ rest, q.startDate ≤ q.endDate :=
      fun q hq => hin q (List.mem_cons_of_mem _ hq)
    cases hscan : scanResult l acc with
    | some merged =>
      simp only [hscan]
      exact ih _ hrest (scanResult_invariant l hl acc merged hacc hscan)
    | none =>
      simp only [hscan]
      refine ih _ hrest ?_
      intro q hq
      rcases List.mem_append.mp hq with hq | hq
      · exact hacc q hq
      · simp at hq
        subst hq
        exact hl

/-- C8: `cleanLectures` preserves the lecture invariant startDate ≤
endDate: if every input lecture satisfies it, every output lecture does
too (the containment, backward-extension and forward-extension merge cases
each maintain it). -/
theorem C8_theorem (lectures : List Lecture)
    (h : ∀ l ∈ lectures, l.startDate ≤ l.endDate) :
    ∀ r ∈ cleanLectures lectures, r.startDate ≤ r.endDate :=
  cleanLectures_fold_invariant lectures [] h (by simp)

/-- C8 witness: the invariant evaluated on the merged entry produced from
the concrete adjacent pair `lecW1`, `lecW2`. -/
theorem C8_witness :
    ({ lecW1 with endDate := 20, endIndex := 4 } : Lecture).startDate ≤
      ({ lecW1 with endDate := 20, endIndex := 4 } : Lecture).endDate :=
  C8_theorem [lecW1, lecW2] (by decide)
    { lecW1 with endDate := 20, endIndex := 4 } (by decide)

/-- C4: against any scripted browser whose first detection yields
FILL_CREDENTIALS, whose second yields DONE, and whose first action returns
normally, the state machine (with at least 2 turns configured) succeeds in
exactly 2 turns, issuing exactly one credential-fill action and no TOTP
action. -/
theorem C4_theorem (script : BrowserScript) (cfg : LoginConfig)
    (h0 : detectLoginState (script.obs 0) = .FILL_CREDENTIALS)
    (h1 : detectLoginState (script.obs 1) = .DONE)
    (ha : script.actResult 0 = .ok)
    (ht : 2 ≤ cfg.state_max_turns) :
    runLoginStateMachine script cfg =
      ⟨true, 2, [.FILL_CREDENTIALS]⟩ := by
  obtain ⟨k, hk⟩ : ∃ k, cfg.state_max_turns = k + 1 + 1 := ⟨cfg.state_max_turns - 2, by omega⟩
  rw [runLoginStateMachine, hk]
  simp [runLoginTurns, h0, h1, ha]

/-- C4 witness: the scripted browser `credsThenDoneScript` with 10 turns
configured succeeds in 2 turns with exactly one credential-fill action. -/
theorem C4_witness :
    runLoginStateMachine credsThenDoneScript ⟨10, 3⟩ =
      ⟨true, 2, [.FILL_CREDENTIALS]⟩ :=
  C4_theorem credsThenDoneScript ⟨10, 3⟩ rfl rfl rfl (by decide)

/-- If every detection yields UNKNOWN, every turn of the loop is skipped:
the turn loop burns all remaining turns without any action and fails. -/
theorem runLoginTurns_unknown (script : BrowserScript) (cfg : LoginConfig)
    (h : ∀ n, detectLoginState (script.obs n) = .UNKNOWN) :
    ∀ turnsLeft dIdx aIdx used acts,
      runLoginTurns script cfg turnsLeft dIdx aIdx used acts =
        ⟨false, used + turnsLeft, acts⟩ := by
  intro turnsLeft
  induction turnsLeft with
  | zero =>
    intro dIdx aIdx used acts
    simp [runLoginTurns]
  | succ n ih =>
    intro dIdx aIdx used acts
    simp only [runLoginTurns, h dIdx]
    rw [ih (dIdx + 1) aIdx (used + 1) acts]
    congr 1
    omega

/-- C5: against any scripted browser on which every detection yields
UNKNOWN, the state machine runs exactly `state_max_turns` turns, never
invokes any step's act function, and the attempt fails. -/
theorem C5_theorem (script : BrowserScript) (cfg : LoginConfig)
    (h : ∀ n, detectLoginState (script.obs n) = .UNKNOWN) :
    runLoginStateMachine script cfg =
      ⟨false, cfg.state_max_turns, []⟩ := by
  rw [runLoginStateMachine]
  rw [runLoginTurns_unknown script cfg h cfg.state_max_turns 0 0 0 []]
  congr 1
  omega

/-- C5 witness: the all-UNKNOWN scripted browser with 3 turns configured
exhausts its 3 turns with no action and fails. -/
theorem C5_witness :
    runLoginStateMachine unknownScript ⟨3, 3⟩ = ⟨false, 3, []⟩ :=
  C5_theorem unknownScript ⟨3, 3⟩ (fun _ => rfl)

/-- C6: `compose_start_end` is deterministic and independent of the
executing machine's local zone (the institution's home zone is pinned in
the source); for every valid date string and HHMM integers it returns
base-midnight-in-the-fixed-zone plus `hhmm div 100` hours plus
`hhmm mod 100` minutes; composing "2021-08-10" with 0835 always yields the
absolute Unix timestamp 1628555700. -/
theorem C6_theorem :
    (∀ z1 z2 : Int, ∀ ds : String, ∀ s e : Int,
      compose_start_end_in_env z1 ds s e = compose_start_end_in_env z2 ds s e) ∧
    (∀ (ds : String) (s e base : Int),
      raw_date_to_unix_timestamp ds = some base →
      compose_start_end ds s e =
        some (base + s.fdiv 100 * 3600 + s.fmod 100 * 60,
              base + e.fdiv 100 * 3600 + e.fmod 100 * 60)) ∧
    compose_start_end "2021-08-10" 835 835 =
      some (1628555700, 1628555700) := by
  refine ⟨fun _ _ _ _ _ => rfl, ?_, by decide⟩
  intro ds s e base h
  simp [compose_start_end, compose_datetime, h]

/-- C6 witness: the composition equation applied to the concrete date
"2021-08-10" (whose fixed-zone midnight is 1628524800) and HHMM 0835. -/
theorem C6_witness :
    compose_start_end "2021-08-10" 835 835 =
      some (1628524800 + (835 : Int).fdiv 100 * 3600 + (835 : Int).fmod 100 * 60,
            1628524800 + (835 : Int).fdiv 100 * 3600 + (835 : Int).fmod 100 * 60) :=
  C6_theorem.2.1 "2021-08-10" 835 835 1628524800 (by decide)

/-- The exam-type mapping only ever yields one of the three labels. -/
theorem examTypeOf_mem_labels (c : Option Int) :
    examTypeOf c = "期中考试" ∨ examTypeOf c = "期末考试" ∨
      examTypeOf c = "Unknown" := by
  unfold examTypeOf
  split
  · exact Or.inl rfl
  · split
    · exact Or.inr (Or.inl rfl)
    · exact Or.inr (Or.inr rfl)

/-- Any exam produced by `parseExamItem` carries the label computed by the
exam-type mapping from its item's code. -/
theorem parseExamItem_examType (item : RawExamItem) (k : Int) (e : Exam)
    (h : parseExamItem item = some (some (k, e))) :
    e.examType = examTypeOf item.examType := by
  obtain ⟨d, st, et, les, ty, mode, rooms⟩ := item
  cases d with
  | none => simp [parseExamItem] at h
  | some d =>
    by_cases hd : d = ""
    · simp [parseExamItem, hd] at h
    · cases st with
      | none => simp [parseExamItem, hd] at h
      | some st =>
        cases et with
        | none => simp [parseExamItem, hd] at h
        | some et =>
          cases les with
          | none => simp [parseExamItem, hd] at h
          | some les =>
            obtain ⟨lid, lcourse⟩ := les
            cases lcourse with
            | none => simp [parseExamItem, hd] at h
            | some course =>
              cases lid with
              | none => simp [parseExamItem, hd] at h
              | some lesson_id =>
                cases hcse : compose_start_end d st et with
                | none => simp [parseExamItem, hd, hcse] at h
                | some se =>
                  obtain ⟨sd, ed⟩ := se
                  simp only [parseExamItem, if_neg hd, hcse,
                    Option.some_inj, Prod.mk.injEq] at h
                  obtain ⟨-, he⟩ := h
                  rw [← he]

/-- `examDictAppend` preserves a property of every stored exam, provided
the appended exam has it. -/
theorem examDictAppend_forall (P : Exam → Prop) (m : List (Int × List Exam))
    (k : Int) (e : Exam) (hm : ∀ p ∈ m, ∀ x ∈ p.2, P x) (he : P e) :
    ∀ p ∈ examDictAppend m k e, ∀ x ∈ p.2, P x := by
  intro p hp x hx
  unfold examDictAppend at hp
  split at hp
  · rw [List.mem_map] at hp
    obtain ⟨q, hq, hqp⟩ := hp
    by_cases hk : q.1 == k
    · simp only [hk, if_true] at hqp
      rw [← hqp] at hx
      rcases List.mem_append.mp hx with hx | hx
      · exact hm q hq x hx
      · simp at hx
        rw [hx]
        exact he
    · simp only [hk] at hqp
      simp at hqp
      rw [← hqp] at hx
      exact hm q hq x hx
  · rcases List.mem_append.mp hp with hp | hp
    · exact hm p hp x hx
    · simp at hp
      rw [hp] at hx
      simp at hx
      rw [hx]
      exact he

/-- A fold of `parseExamStep` started from an exception stays an
exception. -/
theorem foldl_parseExamStep_none (items : List (Option RawExamItem)) :
    items.foldl parseExamStep none = none := by
  induction items with
  | nil => rfl
  | cons oitem rest ih => simpa [parseExamStep] using ih

/-- Every exam accumulated by the `parse_exams` fold carries one of the
three exam-type labels. -/
theorem foldl_parseExamStep_labels (items : List (Option RawExamItem)) :
    ∀ m, (∀ p ∈ m, ∀ x ∈ p.2, x.examType = "期中考试" ∨
        x.examType = "期末考试" ∨ x.examType = "Unknown") →
      ∀ m2, items.foldl parseExamStep (some m) = some m2 →
        ∀ p ∈ m2, ∀ x ∈ p.2, x.examType = "期中考试" ∨
          x.examType = "期末考试" ∨ x.examType = "Unknown" := by
  induction items with
  | nil =>
    intro m hm m2 h
    simp only [List.foldl_nil, Option.some_inj] at h
    rw [← h]
    exact hm
  | cons oitem rest ih =>
    intro m hm m2 h
    simp only [List.foldl_cons] at h
    cases oitem with
    | none =>
      exact ih m hm m2 (by simpa [parseExamStep] using h)
    | some item =>
      cases hstep : parseExamItem item with
      | none =>
        rw [show parseExamStep (some m) (some item) = none by
          simp [parseExamStep, hstep]] at h
        rw [foldl_parseExamStep_none rest] at h
        exact absurd h (by simp)
      | some produced =>
        cases produced with
        | none =>
          exact ih m hm m2 (by simpa [parseExamStep, hstep] using h)
        | some ke =>
          obtain ⟨k, e⟩ := ke
          have he : e.examType = "期中考试" ∨ e.examType = "期末考试" ∨
              e.examType = "Unknown" := by
            rw [parseExamItem_examType item k e hstep]
            exact examTypeOf_mem_labels item.examType
          refine ih (examDictAppend m k e) ?_ m2
            (by simpa [parseExamStep, hstep] using h)
          exact examDictAppend_forall _ m k e hm he

/-- C7: the exam-type mapping of `parse_exams` sends code 1 to the midterm
label, code 2 to the final label, and every other integer (or a missing
code) to the literal "Unknown", never raising for out-of-range codes; and
every exam `parse_exams` produces carries one of those three labels. -/
theorem C7_theorem :
    examTypeOf (some 1) = "期中考试" ∧
    examTypeOf (some 2) = "期末考试" ∧
    (∀ c : Int, c ≠ 1 → c ≠ 2 → examTypeOf (some c) = "Unknown") ∧
    examTypeOf none = "Unknown" ∧
    (∀ items m, parse_exams items = some m →
      ∀ p ∈ m, ∀ e ∈ p.2, e.examType = "期中考试" ∨
        e.examType = "期末考试" ∨ e.examType = "Unknown") := by
  refine ⟨rfl, rfl, ?_, rfl, ?_⟩
  · intro c h1 h2
    simp [examTypeOf, h1, h2]
  · intro items m h
    exact foldl_parseExamStep_labels items [] (by simp) m h

/-- C7 witness: the mapping applied to the out-of-range code 7, and the
label of the concrete exam parsed from `demoExamItem`. -/
theorem C7_witness :
    examTypeOf (some 7) = "Unknown" ∧
    (demoParsedExam.examType = "期中考试" ∨
      demoParsedExam.examType = "期末考试" ∨
      demoParsedExam.examType = "Unknown") :=
  ⟨C7_theorem.2.2.1 7 (by decide) (by decide),
   C7_theorem.2.2.2.2 [some demoExamItem] [(99, [demoParsedExam])]
     (by decide) (99, [demoParsedExam]) (by decide) demoParsedExam (by decide)⟩

/-- C9: when every raw semester id parses, the orchestrator persists the
full unfiltered list to semesters.json, and a semester is processed
exactly when its numeric id is at or above the configured floor 401; in
particular every semester with id below 401 is excluded from per-semester
fetching entirely. -/
theorem C9_theorem (semesters : List Semester) (processed : List Semester)
    (h : processedSemesters semesters = some processed) :
    (make_curriculum_core semesters).1 = semesters ∧
    ∀ s, s ∈ processed ↔
      (s ∈ semesters ∧ ∃ k, pyIntOfString s.id = some k ∧ 401 ≤ k) := by
  refine ⟨rfl, ?_⟩
  have hall : semesters.all (fun s => (pyIntOfString s.id).isSome) = true := by
    by_contra hc
    simp only [processedSemesters] at h
    rw [if_neg hc] at h
    exact absurd h (by simp)
  have hproc : processed =
      semesters.filter (fun s => 401 ≤ (pyIntOfString s.id).getD 0) := by
    simp only [processedSemesters] at h
    rw [if_pos hall] at h
    exact (Option.some_inj.mp h).symm
  intro s
  rw [hproc]
  constructor
  · intro hs
    obtain ⟨hmem, hpred⟩ := List.mem_filter.mp hs
    have hsome : (pyIntOfString s.id).isSome := by
      have := List.all_eq_true.mp hall s hmem
      simpa using this
    obtain ⟨k, hk⟩ := Option.isSome_iff_exists.mp hsome
    refine ⟨hmem, k, hk, ?_⟩
    have : 401 ≤ (pyIntOfString s.id).getD 0 := by simpa using hpred
    rw [hk] at this
    simpa using this
  · intro ⟨hmem, k, hk, h401⟩
    refine List.mem_filter.mpr ⟨hmem, ?_⟩
    simp [hk, h401]

/-- C9 witness: in the concrete two-semester payload, the id-400 semester
is excluded from the processed list (the membership criterion evaluates to
false on both sides). -/
theorem C9_witness :
    sem400 ∈ demoProcessed ↔
      (sem400 ∈ demoSemesters ∧
        ∃ k, pyIntOfString sem400.id = some k ∧ 401 ≤ k) :=
  (C9_theorem demoSemesters demoProcessed (by decide)).2 sem400

/-- C10: once `_get_jw_user_id` has succeeded from an empty module cache,
every subsequent call — whatever session id is passed and whatever
redirect URL a fresh resolution would observe — returns the same cached
user id, performs no network resolution, and leaves the cache unchanged. -/
theorem C10_theorem (sid0 : Nat) (url0 : String) (uid : String)
    (c1 : List (Nat × String)) (net : Bool)
    (h : getJwUserId [] sid0 url0 = .ok (uid, c1, net)) :
    ∀ calls : List (Nat × String),
      (runJwCalls c1 calls).1 = calls.map (fun _ => .ok (uid, false)) ∧
      (runJwCalls c1 calls).2 = c1 := by
  have hc1 : c1 = [(sid0, uid)] := by
    simp only [getJwUserId] at h
    split at h
    · simp only [Except.ok.injEq, Prod.mk.injEq] at h
      obtain ⟨hu, hc, -⟩ := h
      rw [← hc, hu]
    · exact absurd h (by simp)
  subst hc1
  intro calls
  induction calls with
  | nil => exact ⟨rfl, rfl⟩
  | cons c rest ih =>
    obtain ⟨sid, url⟩ := c
    simp only [runJwCalls, getJwUserId, List.map_cons]
    exact ⟨by rw [ih.1], by rw [ih.2]⟩

/-- C10 witness: after a first successful resolution caching user id
"12345" for session 7, two later calls from sessions 2 and 3 (one with a
URL that could not even be resolved) both return "12345" without touching
the network, and the cache still holds only the first entry. -/
theorem C10_witness :
    (runJwCalls [(7, "12345")] demoJwCalls).1 =
      demoJwCalls.map (fun _ => .ok ("12345", false)) ∧
    (runJwCalls [(7, "12345")] demoJwCalls).2 = [(7, "12345")] :=
  C10_theorem 7 "https://jw.ustc.edu.cn/for-std/course-select/12345"
    "12345" [(7, "12345")] true rfl demoJwCalls

end Static
